import Mathlib

/-!
Shallow embedding of the auto-tagging and description-matching engine and
the tag-driven archival pipeline of the `spending_db` / `financial_analyst`
Flask applications.

The embedding models the Postgres tables (`tags`, `records_imported`,
`records_history`) as Lean lists of structures, and the SQL statements of
`auto_apply_tags`, `push_to_history`, `import_records`, `import_tags` and
`import_history` as pure functions on those lists.  SQL `ILIKE` is modelled
by an executable pattern matcher (`likeM`) with `%`/`_` wildcards, the
default backslash escape, and case folding, exactly as PostgreSQL
interprets the patterns the Python code builds.  CSV upload mechanics
(reading the file, stripping `%` bytes in `import_records`, and splitting
the decoded text into lines) belong to the excluded web layer; the import
operations therefore take the resulting list of lines as input and start
from the routes' `len(lines) > 1` guard.

Result-set orderings that PostgreSQL leaves to the storage layer
(`SELECT DISTINCT` order, scan order, the tie-break of
`ORDER BY count DESC LIMIT 1`) are determinised as first-occurrence /
first-scanned order.
-/

namespace Spec2Proof

/-- Fuel-indexed SQL `LIKE`/`ILIKE` pattern matcher over character lists:
`%` matches any sequence, `_` any single character, a backslash escapes the
next pattern character, and characters compare case-insensitively (this is
`ILIKE`).  The fuel only forces structural termination; `likeM` below
always supplies enough. -/
def likeF : Nat → List Char → List Char → Bool
  | 0, _, _ => false
  | _ + 1, [], t => t.isEmpty
  | n + 1, p :: ps, t =>
    if p = '%' then
      match t with
      | [] => likeF n ps []
      | c :: ts => likeF n ps (c :: ts) || likeF n (p :: ps) ts
    else if p = '\\' then
      match ps with
      | [] => false
      | q :: ps' =>
        match t with
        | [] => false
        | c :: ts => (Char.toLower q == Char.toLower c) && likeF n ps' ts
    else if p = '_' then
      match t with
      | [] => false
      | _ :: ts => likeF n ps ts
    else
      match t with
      | [] => false
      | c :: ts => (Char.toLower p == Char.toLower c) && likeF n ps ts

/-- `likeM pattern text`: does `text` match the `ILIKE` pattern? -/
def likeM (p t : List Char) : Bool := likeF (p.length + t.length + 1) p t

/-- `x ILIKE pat` for strings. -/
def ilike (x pat : String) : Bool := likeM pat.data x.data

/-- Python `s.strip()`: drop whitespace from both ends. -/
def pyStrip (s : String) : String :=
  (((s.data.dropWhile Char.isWhitespace).reverse.dropWhile
      Char.isWhitespace).reverse).asString

/-- Python `s.strip().strip('"')`: trim whitespace, then strip leading and
trailing double-quote characters, as the import routes do to each CSV
field. -/
def stripField (s : String) : String :=
  let t := (pyStrip s).data
  (((t.dropWhile (fun c => c == '"')).reverse.dropWhile
      (fun c => c == '"')).reverse).asString

/-- The quote-aware CSV line splitter the import routes inline: toggle an
in-quotes flag on `"` and split on commas outside quotes. -/
def splitCSVLine (line : String) : List String :=
  let st := line.data.foldl
    (fun (st : List String × Bool × String) c =>
      if c == '"' then (st.1, !st.2.1, st.2.2)
      else if c == ',' && !st.2.1 then (st.1 ++ [st.2.2], st.2.1, "")
      else (st.1, st.2.1, st.2.2.push c))
    ([], false, "")
  st.1 ++ [st.2.2]

namespace SpendingDB

/-- A row of the `tags` table (`description TEXT UNIQUE, tag TEXT`). -/
structure TagEntry where
  description : String
  tag : String
deriving DecidableEq, Repr

/-- A row of the `records_imported` working-set table. -/
structure TransRow where
  date : String
  description : String
  vendor : String
  amount : String
deriving DecidableEq, Repr

/-- A row of the `records_history` table (the `imported_date` timestamp
column is display-only and not modelled). -/
structure HistRow where
  date : String
  description : String
  vendor : String
  amount : String
  tag : String
deriving DecidableEq, Repr

/-- The database state: the three tables of `initialize_database`. -/
structure DB where
  tags : List TagEntry
  records_imported : List TransRow
  records_history : List HistRow
deriving DecidableEq, Repr

/-- `description IN (SELECT description FROM tags)`: some tags row exists
for this description. -/
def hasTagFor (tags : List TagEntry) (d : String) : Bool :=
  tags.any (fun e => e.description == d)

/-- `SELECT tag FROM tags WHERE description = d` (the `description` column
is UNIQUE, so at most one row matches; we take the first). -/
def lookupTag (tags : List TagEntry) (d : String) : Option String :=
  (tags.find? (fun e => e.description == d)).map (fun e => e.tag)

/-- `INSERT INTO tags ... ON CONFLICT (description) DO NOTHING`. -/
def insertTagDoNothing (tags : List TagEntry) (d t : String) : List TagEntry :=
  if hasTagFor tags d then tags else tags ++ [⟨d, t⟩]

/-- `INSERT INTO tags ... ON CONFLICT (description) DO UPDATE SET tag = EXCLUDED.tag`. -/
def upsertTag (tags : List TagEntry) (d t : String) : List TagEntry :=
  if hasTagFor tags d then
    tags.map (fun e => if e.description == d then { e with tag := t } else e)
  else tags ++ [⟨d, t⟩]

/-- First-occurrence deduplication scan (`seen` accumulates the
descriptions already emitted). -/
def dedupFirstAux (seen : List String) : List String → List String
  | [] => []
  | x :: xs =>
    if seen.contains x then dedupFirstAux seen xs
    else x :: dedupFirstAux (x :: seen) xs

/-- `SELECT DISTINCT`, determinised to first-occurrence order of the
underlying scan. -/
def dedupFirst (l : List String) : List String := dedupFirstAux [] l

/-- The untagged distinct working-set descriptions:
`SELECT DISTINCT t.description FROM records_imported t LEFT JOIN tags tt
ON t.description = tt.description WHERE tt.id IS NULL`. -/
def untaggedDescriptions (db : DB) : List String :=
  (dedupFirst (db.records_imported.map (fun t => t.description))).filter
    (fun d => !(hasTagFor db.tags d))

/-- One iteration of the phase-1 loop body of `auto_apply_tags`: scan the
`existing_tags` snapshot for a description exactly equal to `d` (taking
the first hit, as the Python loop breaks there) and insert that tag into
the live table. -/
def phase1Step (existing : List TagEntry) (acc : List TagEntry × Nat)
    (d : String) : List TagEntry × Nat :=
  match existing.find? (fun e => e.description == d) with
  | some e => (insertTagDoNothing acc.1 d e.tag, acc.2 + 1)
  | none => acc

/-- Phase 1 of `auto_apply_tags`: the exact-match loop over the untagged
descriptions. -/
def phase1 (existing : List TagEntry) (tags : List TagEntry)
    (untagged : List String) : List TagEntry × Nat :=
  untagged.foldl (phase1Step existing) (tags, 0)

/-- The phase-2 match condition of `auto_apply_tags` between an untagged
description `d` and another description:
`description ILIKE '%' || d || '%' OR d ILIKE '%' || description || '%'`. -/
def crossMatch (d other : String) : Bool :=
  ilike other ("%" ++ d ++ "%") || ilike d ("%" ++ other ++ "%")

/-- A tag-store row matches an untagged description `d` when the SQL
condition of the phase-2 query holds for its description. -/
def tagMatches (d : String) (e : TagEntry) : Bool :=
  crossMatch d e.description

/-- The tags of all store rows matching `d` (the rows the phase-2
`GROUP BY tag` aggregates over). -/
def matchingTags (tags : List TagEntry) (d : String) : List String :=
  (tags.filter (tagMatches d)).map (fun e => e.tag)

/-- `SELECT tag, COUNT(*) ... GROUP BY tag ORDER BY count DESC LIMIT 1`:
the tag with the highest occurrence count among the matches, `none` when
there is no match; ties are broken deterministically in favour of the
first-scanned tag (the SQL leaves the tie-break to the storage layer). -/
def bestStep (L : List String) (acc : Option (String × Nat)) (t : String) :
    Option (String × Nat) :=
  match acc with
  | none => some (t, L.count t)
  | some (b, c) => if c < L.count t then some (t, L.count t) else some (b, c)

/-- The winning tag of the grouped-count query (see `bestStep`). -/
def bestTag (l : List String) : Option String :=
  (l.foldl (bestStep l) none).map (fun p => p.1)

/-- One iteration of the phase-2 loop: query the current tag store for the
most common matching tag and insert it for `d` when a match exists
(`partial_matches` is incremented whenever the query returns a row). -/
def phase2Step (st : List TagEntry × Nat) (d : String) : List TagEntry × Nat :=
  match bestTag (matchingTags st.1 d) with
  | some w => (insertTagDoNothing st.1 d w, st.2 + 1)
  | none => st

/-- Phase 2 of `auto_apply_tags`: fold the phase-2 loop over the
still-untagged descriptions, threading the live tags table (the
connection is in autocommit mode, so each iteration's insert is visible
to the next iteration's query). -/
def phase2 (tags : List TagEntry) (untagged : List String) : List TagEntry × Nat :=
  untagged.foldl phase2Step (tags, 0)

/-- The tag rows phase 2 adds when processed against a fixed store
`store0`: one row per untagged description with at least one match. -/
def phase2Assign (store0 : List TagEntry) (l : List String) : List TagEntry :=
  l.filterMap (fun d => (bestTag (matchingTags store0 d)).map (fun w => ⟨d, w⟩))

/-- The number of untagged descriptions with at least one match against
the fixed store `store0`. -/
def phase2Count (store0 : List TagEntry) (l : List String) : Nat :=
  l.countP (fun d => (bestTag (matchingTags store0 d)).isSome)

/-- `auto_apply_tags`: phase 1 (exact match against the snapshot of
existing tags) followed by phase 2 (partial match over the recomputed
untagged set), returning the new state and the total applied count. -/
def auto_apply_tags (db : DB) : DB × Nat :=
  let p1 := phase1 db.tags db.tags (untaggedDescriptions db)
  let db1 : DB := { db with tags := p1.1 }
  let p2 := phase2 db1.tags (untaggedDescriptions db1)
  ({ db1 with tags := p2.1 }, p1.2 + p2.2)

/-- The `NOT EXISTS` guard of `push_to_history`: a history row with the
same (date, description, vendor, amount) tuple exists. -/
def histKeyMatches (t : TransRow) (h : HistRow) : Bool :=
  h.date == t.date && h.description == t.description &&
    h.vendor == t.vendor && h.amount == t.amount

/-- Natural key of a working-set row. -/
def rowKey (t : TransRow) : String × String × String × String :=
  (t.date, t.description, t.vendor, t.amount)

/-- Natural key of a history row. -/
def histKey (h : HistRow) : String × String × String × String :=
  (h.date, h.description, h.vendor, h.amount)

/-- The rows the `INSERT INTO records_history ... SELECT` of
`push_to_history` produces: every working-set row joined with its tags
rows (the `tags.description` column is UNIQUE, so normally at most one),
guarded by `NOT EXISTS` against the history snapshot taken at statement
start (rows inserted by the same statement are not visible to its own
subquery). -/
def pushInserts (db : DB) : List HistRow :=
  db.records_imported.flatMap (fun t =>
    (db.tags.filter (fun e => e.description == t.description)).filterMap
      (fun e =>
        if db.records_history.any (histKeyMatches t) then none
        else some ⟨t.date, t.description, t.vendor, t.amount, e.tag⟩))

/-- `push_to_history`: append `pushInserts` to history, then delete from
the working set every row whose description appears in `tags`.  Returns
the new state and `moved_count` (the INSERT's rowcount). -/
def push_to_history (db : DB) : DB × Nat :=
  ({ db with
      records_history := db.records_history ++ pushInserts db,
      records_imported :=
        db.records_imported.filter (fun t => !(hasTagFor db.tags t.description)) },
    (pushInserts db).length)

/-- `import_tags` (spending_db variant): `lines` is the route's
`csv_data.strip().split('\n')`.  Unless there are at least two lines,
nothing at all happens; otherwise the `tags` table is optionally
truncated, and each data line with at least two fields is upserted. -/
def import_tags (lines : List String) (clearFirst : Bool) (db : DB) : DB × Nat :=
  if lines.length > 1 then
    let db0 := if clearFirst then { db with tags := [] } else db
    let r := (lines.drop 1).foldl
      (fun (st : List TagEntry × Nat) line =>
        let parts := splitCSVLine line
        if parts.length ≥ 2 then
          (upsertTag st.1 (stripField (parts.getD 0 ""))
            (stripField (parts.getD 1 "")), st.2 + 1)
        else st)
      (db0.tags, 0)
    ({ db0 with tags := r.1 }, r.2)
  else (db, 0)

/-- `import_history`: like `import_tags` but into `records_history` with
five fields.  `records_history` has no unique constraint, so the
statement's `ON CONFLICT DO NOTHING` clause can never fire and every
parsed row is appended. -/
def import_history (lines : List String) (clearFirst : Bool) (db : DB) : DB × Nat :=
  if lines.length > 1 then
    let db0 := if clearFirst then { db with records_history := [] } else db
    let r := (lines.drop 1).foldl
      (fun (st : List HistRow × Nat) line =>
        let parts := splitCSVLine line
        if parts.length ≥ 5 then
          (st.1 ++ [⟨stripField (parts.getD 0 ""), stripField (parts.getD 1 ""),
            stripField (parts.getD 2 ""), stripField (parts.getD 3 ""),
            stripField (parts.getD 4 "")⟩], st.2 + 1)
        else st)
      (db0.records_history, 0)
    ({ db0 with records_history := r.1 }, r.2)
  else (db, 0)

/-- `import_records`: `lines` is the route's
`csv_data.replace('%', '').strip().split('\n')`.  Unless there are at
least two lines, nothing at all happens; otherwise the working set is
optionally truncated, every non-empty data line with at least four fields
is appended (`records_imported` has no unique constraint, so the
statement's `ON CONFLICT DO NOTHING` clause can never fire), malformed
lines are counted as errors, and `auto_apply_tags` runs when at least one
row was imported.  Returns (state, records_imported, errors, auto_tagged). -/
def import_records (lines : List String) (clearFirst : Bool) (db : DB) :
    DB × Nat × Nat × Nat :=
  if lines.length > 1 then
    let db0 := if clearFirst then { db with records_imported := [] } else db
    let r := (lines.drop 1).foldl
      (fun (st : List TransRow × Nat × Nat) line =>
        if pyStrip line == "" then st
        else
          let parts := splitCSVLine line
          if parts.length ≥ 4 then
            (st.1 ++ [⟨stripField (parts.getD 0 ""), stripField (parts.getD 1 ""),
              stripField (parts.getD 2 ""), stripField (parts.getD 3 "")⟩],
              st.2.1 + 1, st.2.2)
          else (st.1, st.2.1, st.2.2 + 1))
      (db0.records_imported, 0, 0)
    let db1 := { db0 with records_imported := r.1 }
    if r.2.1 > 0 then
      let a := auto_apply_tags db1
      (a.1, r.2.1, r.2.2, a.2)
    else (db1, r.2.1, r.2.2, 0)
  else (db, 0, 0, 0)

end SpendingDB

namespace FinancialAnalyst

/-- A row of the financial_analyst `tags` table; the `tag` column is
nullable, and `import_tags` distinguishes NULL (`WHERE tag IS NULL`). -/
structure TagEntry where
  description : String
  tag : Option String
deriving DecidableEq, Repr

/-- A row of the financial_analyst `records_history` table (nullable
`tag`; `imported_date` is display-only and not modelled). -/
structure HistRow where
  date : String
  description : String
  vendor : String
  amount : String
  tag : Option String
deriving DecidableEq, Repr

/-- The financial_analyst state touched by `import_tags`: the `tags` and
`records_history` tables. -/
structure DB where
  tags : List TagEntry
  records_history : List HistRow
deriving DecidableEq, Repr

/-- `SELECT tag FROM tags WHERE description = d`: `none` when no row
exists, otherwise the (possibly NULL) tag of the unique matching row. -/
def lookupTag (tags : List TagEntry) (d : String) : Option (Option String) :=
  (tags.find? (fun e => e.description == d)).map (fun e => e.tag)

/-- `INSERT INTO tags ... ON CONFLICT (description) DO UPDATE SET tag = EXCLUDED.tag`. -/
def upsertTag (tags : List TagEntry) (d : String) (t : Option String) :
    List TagEntry :=
  if tags.any (fun e => e.description == d) then
    tags.map (fun e => if e.description == d then { e with tag := t } else e)
  else tags ++ [⟨d, t⟩]

/-- Python dict assignment `tag_mappings[old] = new`: update the value in
place when the key exists, else append (dicts preserve first-insertion
order). -/
def dictInsert (m : List (Option String × String)) (k : Option String)
    (v : String) : List (Option String × String) :=
  if m.any (fun p => p.1 == k) then
    m.map (fun p => if p.1 == k then (p.1, v) else p)
  else m ++ [(k, v)]

/-- One recorded `oldTag -> newTag` bulk update over `records_history`:
`WHERE tag IS NULL` when the old tag is NULL, otherwise `WHERE tag = old`. -/
def applyMapping (hist : List HistRow) (old : Option String) (nw : String) :
    List HistRow :=
  match old with
  | none => hist.map (fun h => if h.tag == none then { h with tag := some nw } else h)
  | some o =>
      hist.map (fun h => if h.tag == some o then { h with tag := some nw } else h)

/-- The final reconciliation pass
`UPDATE records_history rh SET tag = t.tag FROM tags t WHERE rh.description = t.description`:
every history row whose description has a tags row gets that row's tag;
rows whose description has no tags row are untouched. -/
def reconcile (tags : List TagEntry) (hist : List HistRow) : List HistRow :=
  hist.map (fun h =>
    match lookupTag tags h.description with
    | some t => { h with tag := t }
    | none => h)

/-- financial_analyst `import_tags`: `lines` is the route's
`csv_data.strip().split('\n')`.  Unless there are at least two lines,
nothing at all happens.  Otherwise the `tags` table is optionally
truncated; each data line with at least two fields is upserted, recording
an `oldTag -> newTag` mapping whenever the description's stored tag
differs from the imported one; the recorded bulk updates are applied to
`records_history` in dict order; and finally every history row is
reconciled against its description's current tags row. -/
def import_tags (lines : List String) (clearFirst : Bool) (db : DB) : DB × Nat :=
  if lines.length > 1 then
    let db0 := if clearFirst then { db with tags := [] } else db
    let r := (lines.drop 1).foldl
      (fun (st : List TagEntry × List (Option String × String) × Nat) line =>
        let parts := splitCSVLine line
        if parts.length ≥ 2 then
          let d := stripField (parts.getD 0 "")
          let t := stripField (parts.getD 1 "")
          let maps :=
            match lookupTag st.1 d with
            | some old => if old ≠ some t then dictInsert st.2.1 old t else st.2.1
            | none => st.2.1
          (upsertTag st.1 d (some t), maps, st.2.2 + 1)
        else st)
      (db0.tags, [], 0)
    let hist1 := r.2.1.foldl (fun h p => applyMapping h p.1 p.2) db0.records_history
    let hist2 := reconcile r.1 hist1
    ({ tags := r.1, records_history := hist2 }, r.2.2)
  else (db, 0)

end FinancialAnalyst

/-- A case-insensitive prefix-at-some-position scan: `needle` occurs
somewhere inside `hay`. -/
def isInfixOfL (needle : List Char) : List Char → Bool
  | [] => needle.isPrefixOf []
  | c :: t => needle.isPrefixOf (c :: t) || isInfixOfL needle t

/-- Modelled from the spec's wording: plain case-insensitive substring
containment, `a` contains `b`.  Used only to compare the claims' phrase
"D contains E.description (case-insensitive)" with the source's `ILIKE`
pattern semantics. -/
def specContainsCI (a b : String) : Bool :=
  isInfixOfL (b.data.map Char.toLower) (a.data.map Char.toLower)

/-- A character that is not a `LIKE` metacharacter. -/
def noMetaChar (c : Char) : Bool := !(c == '%' || c == '_' || c == '\\')

/-- A string free of `LIKE` metacharacters (`%`, `_`, backslash). -/
def noMeta (s : String) : Bool := s.data.all noMetaChar

namespace SpendingDB

/-- Sample state for the Coffee Shop majority-vote scenario of C3. -/
def dbCoffee : DB :=
  { tags := [⟨"Coffee Shop A", "Dining"⟩, ⟨"Coffee Shop B", "Dining"⟩,
      ⟨"Coffee Shop C", "Groceries"⟩],
    records_imported := [⟨"2024-01-01", "Coffee Shop", "V", "-1.00"⟩],
    records_history := [] }

/-- Sample state refuting C5/C9: tagging "x" creates a new partial match
for "xy". -/
def dbChain : DB :=
  { tags := [⟨"xz", "T"⟩],
    records_imported := [⟨"d1", "xy", "v", "1"⟩, ⟨"d2", "x", "v", "2"⟩],
    records_history := [] }

/-- Sample state refuting C1: two identical tagged working-set rows. -/
def dbDupRows : DB :=
  { tags := [⟨"A", "T"⟩],
    records_imported := [⟨"d1", "A", "v", "1"⟩, ⟨"d1", "A", "v", "1"⟩],
    records_history := [] }

/-- Sample state for C6: the working set already contains the row that the
CSV re-imports. -/
def dbOneRow : DB :=
  { tags := [], records_imported := [⟨"d1", "A", "v", "1"⟩],
    records_history := [] }

/-- Sample state refuting C3's containment reading: the stored description
"a_c" is not a substring of "abc", but matches it as an `ILIKE` pattern. -/
def dbUnderscore : DB :=
  { tags := [⟨"a_c", "T"⟩],
    records_imported := [⟨"d", "abc", "v", "1"⟩],
    records_history := [] }

/-- Sample state with two cross-match-free untagged descriptions, used by
witnesses of the amended C5/C9. -/
def dbFree : DB :=
  { tags := [⟨"xz", "T"⟩],
    records_imported := [⟨"d1", "ab", "v", "1"⟩, ⟨"d2", "cd", "v", "2"⟩],
    records_history := [] }

/-- Sample state where an archival run actually moves a row, used by the
witness of the amended C1. -/
def dbMoveOne : DB :=
  { tags := [⟨"A", "T"⟩],
    records_imported := [⟨"d1", "A", "v", "1"⟩],
    records_history := [⟨"d0", "B", "v", "2", "U"⟩] }

end SpendingDB

namespace FinancialAnalyst

/-- Sample state refuting C2: the history row for description "E" carries
tag "Old" but "E" has no tags row, so the crude bulk update is what
decides its final tag. -/
def dbRemap : DB :=
  { tags := [⟨"D", some "Old"⟩],
    records_history := [⟨"h1", "D", "v", "1", some "Old"⟩,
      ⟨"h2", "E", "v", "2", some "Old"⟩] }

end FinancialAnalyst

/-- The matcher's value does not depend on the fuel once the fuel exceeds
the combined length of pattern and text. -/
theorem likeF_stable (n : Nat) : ∀ (m : Nat) (p t : List Char),
    p.length + t.length < n → p.length + t.length < m →
    likeF n p t = likeF m p t := by
  induction n with
  | zero => intro m p t hn _; exact absurd hn (Nat.not_lt_zero _)
  | succ n ih =>
    intro m p t hn hm
    cases m with
    | zero => exact absurd hm (Nat.not_lt_zero _)
    | succ m =>
      cases p with
      | nil => rfl
      | cons pc ps =>
        by_cases h1 : pc = '%'
        · subst h1
          cases t with
          | nil =>
            show likeF n ps [] = likeF m ps []
            exact ih m ps []
              (by simp only [List.length_cons, List.length_nil] at hn ⊢; omega)
              (by simp only [List.length_cons, List.length_nil] at hm ⊢; omega)
          | cons c ts =>
            show (likeF n ps (c :: ts) || likeF n ('%' :: ps) ts)
                = (likeF m ps (c :: ts) || likeF m ('%' :: ps) ts)
            rw [ih m ps (c :: ts)
                (by simp only [List.length_cons] at hn ⊢; omega)
                (by simp only [List.length_cons] at hm ⊢; omega),
              ih m ('%' :: ps) ts
                (by simp only [List.length_cons] at hn ⊢; omega)
                (by simp only [List.length_cons] at hm ⊢; omega)]
        · by_cases h2 : pc = '\\'
          · subst h2
            cases ps with
            | nil => cases t <;> rfl
            | cons q ps' =>
              cases t with
              | nil => rfl
              | cons c ts =>
                show ((Char.toLower q == Char.toLower c) && likeF n ps' ts)
                    = ((Char.toLower q == Char.toLower c) && likeF m ps' ts)
                rw [ih m ps' ts
                  (by simp only [List.length_cons] at hn ⊢; omega)
                  (by simp only [List.length_cons] at hm ⊢; omega)]
          · by_cases h3 : pc = '_'
            · subst h3
              cases t with
              | nil => rfl
              | cons c ts =>
                show likeF n ps ts = likeF m ps ts
                exact ih m ps ts
                  (by simp only [List.length_cons] at hn ⊢; omega)
                  (by simp only [List.length_cons] at hm ⊢; omega)
            · cases t with
              | nil =>
                simp only [likeF]
                rw [if_neg h1, if_neg h1]
              | cons c ts =>
                simp only [likeF]
                rw [if_neg h1, if_neg h1, if_neg h2, if_neg h2, if_neg h3, if_neg h3]
                show ((Char.toLower pc == Char.toLower c) && likeF n ps ts)
                    = ((Char.toLower pc == Char.toLower c) && likeF m ps ts)
                rw [ih m ps ts
                  (by simp only [List.length_cons] at hn ⊢; omega)
                  (by simp only [List.length_cons] at hm ⊢; omega)]

/-- Any sufficiently fuelled run of `likeF` computes `likeM`. -/
theorem likeF_to_likeM (n : Nat) (p t : List Char) (h : p.length + t.length < n) :
    likeF n p t = likeM p t :=
  likeF_stable n (p.length + t.length + 1) p t h (Nat.lt_succ_self _)

/-- Unfolding `likeM` on the empty pattern. -/
theorem likeM_nil_pat (t : List Char) : likeM [] t = t.isEmpty := rfl

/-- Unfolding `likeM` on a leading `%` with empty text. -/
theorem likeM_percent_nilT (ps : List Char) : likeM ('%' :: ps) [] = likeM ps [] := rfl

/-- Unfolding `likeM` on a leading `%` with nonempty text. -/
theorem likeM_percent_cons (ps : List Char) (c : Char) (ts : List Char) :
    likeM ('%' :: ps) (c :: ts) = (likeM ps (c :: ts) || likeM ('%' :: ps) ts) := by
  show (likeF (('%' :: ps).length + (c :: ts).length) ps (c :: ts)
      || likeF (('%' :: ps).length + (c :: ts).length) ('%' :: ps) ts)
    = (likeM ps (c :: ts) || likeM ('%' :: ps) ts)
  rw [likeF_to_likeM _ ps (c :: ts)
      (by simp only [List.length_cons]; omega),
    likeF_to_likeM _ ('%' :: ps) ts
      (by simp only [List.length_cons]; omega)]

/-- A non-`%` pattern head never matches empty text. -/
theorem likeM_nonpercent_nil (pc : Char) (ps : List Char) (h1 : pc ≠ '%') :
    likeM (pc :: ps) [] = false := by
  simp only [likeM, likeF]
  rw [if_neg h1]
  by_cases h2 : pc = '\\'
  · rw [if_pos h2]; cases ps <;> rfl
  · rw [if_neg h2]
    by_cases h3 : pc = '_'
    · rw [if_pos h3]
    · rw [if_neg h3]

/-- A literal pattern head consumes one text character, case-insensitively. -/
theorem likeM_lit_cons (pc : Char) (ps : List Char) (c : Char) (ts : List Char)
    (h1 : pc ≠ '%') (h2 : pc ≠ '\\') (h3 : pc ≠ '_') :
    likeM (pc :: ps) (c :: ts) =
      ((Char.toLower pc == Char.toLower c) && likeM ps ts) := by
  simp only [likeM, likeF]
  rw [if_neg h1, if_neg h2, if_neg h3]
  show ((Char.toLower pc == Char.toLower c)
      && likeF ((pc :: ps).length + (c :: ts).length) ps ts) = _
  rw [likeF_to_likeM _ ps ts (by simp only [List.length_cons]; omega)]
  rfl

/-- The pattern consisting of a single `%` matches everything. -/
theorem likeM_percent_all (t : List Char) : likeM ['%'] t = true := by
  induction t with
  | nil => rfl
  | cons c ts ih => rw [likeM_percent_cons, ih, likeM_nil_pat]; rfl

/-- A character free of `LIKE` metacharacters is not one of them. -/
theorem noMetaChar_ne {c : Char} (h : noMetaChar c = true) :
    c ≠ '%' ∧ c ≠ '\\' ∧ c ≠ '_' := by
  refine ⟨?_, ?_, ?_⟩ <;> intro hc <;> subst hc <;> simp [noMetaChar] at h

/-- A metacharacter-free pattern followed by a trailing `%` matches exactly
the texts that start with the pattern (case-insensitively). -/
theorem likeM_lit_prefix (p : List Char) : p.all noMetaChar = true →
    ∀ (t : List Char),
      likeM (p ++ ['%']) t = (p.map Char.toLower).isPrefixOf (t.map Char.toLower) := by
  induction p with
  | nil => intro _ t; simpa [List.isPrefixOf] using likeM_percent_all t
  | cons pc ps ih =>
    intro hp t
    have hpc : noMetaChar pc = true := by
      simp only [List.all_cons, Bool.and_eq_true] at hp; exact hp.1
    have hps : ps.all noMetaChar = true := by
      simp only [List.all_cons, Bool.and_eq_true] at hp; exact hp.2
    obtain ⟨h1, h2, h3⟩ := noMetaChar_ne hpc
    cases t with
    | nil =>
      rw [List.cons_append, likeM_nonpercent_nil pc _ h1]
      simp [List.isPrefixOf]
    | cons c ts =>
      rw [List.cons_append, likeM_lit_cons pc _ c ts h1 h2 h3, ih hps ts]
      simp [List.isPrefixOf]

/-- For a metacharacter-free core `p`, the pattern `%p%` matches exactly
the texts containing `p` (case-insensitively). -/
theorem likeM_infix (p : List Char) (hp : p.all noMetaChar = true) :
    ∀ (t : List Char),
      likeM ('%' :: (p ++ ['%'])) t =
        isInfixOfL (p.map Char.toLower) (t.map Char.toLower) := by
  intro t
  induction t with
  | nil =>
    rw [likeM_percent_nilT, likeM_lit_prefix p hp []]
    simp [isInfixOfL]
  | cons c ts ih =>
    rw [likeM_percent_cons, likeM_lit_prefix p hp (c :: ts), ih]
    simp [isInfixOfL]

/-- For metacharacter-free stored strings, the `ILIKE` wrap pattern the
code builds coincides with plain case-insensitive containment. -/
theorem ilike_wrap (t p : String) (hp : noMeta p = true) :
    ilike t ("%" ++ p ++ "%") = specContainsCI t p := by
  have hd : ("%" ++ p ++ "%").data = '%' :: (p.data ++ ['%']) := by
    simp [String.data_append]
  unfold ilike specContainsCI
  rw [hd]
  exact likeM_infix p.data hp t.data

namespace SpendingDB

/-- For metacharacter-free descriptions, the SQL match condition of the
partial-match phase is exactly bidirectional case-insensitive substring
containment. -/
theorem crossMatch_contains (d e : String) (hd : noMeta d = true)
    (he : noMeta e = true) :
    crossMatch d e = (specContainsCI e d || specContainsCI d e) := by
  unfold crossMatch
  rw [ilike_wrap e d hd, ilike_wrap d e he]

/-- No tags row carries description `d` iff `hasTagFor` is false. -/
theorem hasTagFor_false_iff {tags : List TagEntry} {d : String} :
    hasTagFor tags d = false ↔ ∀ e ∈ tags, e.description ≠ d := by
  simp [hasTagFor, List.any_eq_false]

/-- When no tags row carries description `d`, the lookup scan finds none. -/
theorem find?_desc_none {tags : List TagEntry} {d : String}
    (h : hasTagFor tags d = false) :
    tags.find? (fun e => e.description == d) = none := by
  rw [List.find?_eq_none]
  intro e he
  simpa using hasTagFor_false_iff.mp h e he

/-- `hasTagFor` distributes over appended tag lists. -/
theorem hasTagFor_append (xs ys : List TagEntry) (d : String) :
    hasTagFor (xs ++ ys) d = (hasTagFor xs d || hasTagFor ys d) := by
  simp [hasTagFor, List.any_append]

/-- Membership in the deduplication scan. -/
theorem mem_dedupFirstAux : ∀ (l seen : List String) (a : String),
    a ∈ dedupFirstAux seen l ↔ (a ∈ l ∧ a ∉ seen) := by
  intro l
  induction l with
  | nil => intro seen a; simp [dedupFirstAux]
  | cons x xs ih =>
    intro seen a
    by_cases hc : seen.contains x
    · have hx : x ∈ seen := by simpa using hc
      rw [dedupFirstAux, if_pos hc, ih]
      constructor
      · exact fun h => ⟨List.mem_cons_of_mem _ h.1, h.2⟩
      · rintro ⟨hm, hs⟩
        rcases List.mem_cons.mp hm with rfl | hm'
        · exact absurd hx hs
        · exact ⟨hm', hs⟩
    · have hx : x ∉ seen := by simpa using hc
      rw [dedupFirstAux, if_neg hc]
      constructor
      · intro h
        rcases List.mem_cons.mp h with rfl | h'
        · exact ⟨List.mem_cons_self _ _, hx⟩
        · have := (ih (x :: seen) a).mp h'
          exact ⟨List.mem_cons_of_mem _ this.1,
            fun hs => this.2 (List.mem_cons_of_mem _ hs)⟩
      · rintro ⟨hm, hs⟩
        by_cases hax : a = x
        · exact hax ▸ List.mem_cons_self _ _
        · rcases List.mem_cons.mp hm with rfl | hm'
          · exact absurd rfl hax
          · refine List.mem_cons_of_mem _ ((ih (x :: seen) a).mpr ⟨hm', ?_⟩)
            intro hmem
            rcases List.mem_cons.mp hmem with rfl | h'
            · exact hax rfl
            · exact hs h'

/-- The deduplication scan never emits a description twice. -/
theorem nodup_dedupFirstAux : ∀ (l seen : List String),
    (dedupFirstAux seen l).Nodup := by
  intro l
  induction l with
  | nil => intro seen; simp [dedupFirstAux]
  | cons x xs ih =>
    intro seen
    by_cases hc : seen.contains x
    · rw [dedupFirstAux, if_pos hc]; exact ih seen
    · rw [dedupFirstAux, if_neg hc]
      refine List.nodup_cons.mpr ⟨?_, ih (x :: seen)⟩
      intro hmem
      exact ((mem_dedupFirstAux xs (x :: seen) x).mp hmem).2
        (List.mem_cons_self x seen)

/-- `dedupFirst` produces a duplicate-free list. -/
theorem dedupFirst_nodup (l : List String) : (dedupFirst l).Nodup :=
  nodup_dedupFirstAux l []

/-- `dedupFirst` preserves membership. -/
theorem mem_dedupFirst {l : List String} {a : String} :
    a ∈ dedupFirst l ↔ a ∈ l := by
  simp [dedupFirst, mem_dedupFirstAux]

/-- Every untagged description has no tags row. -/
theorem untagged_hasTagFor_false {db : DB} {d : String}
    (h : d ∈ untaggedDescriptions db) : hasTagFor db.tags d = false := by
  have := (List.mem_filter.mp h).2
  simpa using this

/-- The untagged description list is duplicate-free. -/
theorem untagged_nodup (db : DB) : (untaggedDescriptions db).Nodup :=
  (dedupFirst_nodup _).filter _

/-- A fold step of the grouped-count query always yields a candidate. -/
theorem bestStep_isSome (L : List String) (acc : Option (String × Nat))
    (t : String) : (bestStep L acc t).isSome = true := by
  cases acc with
  | none => rfl
  | some p =>
    obtain ⟨b, c⟩ := p
    by_cases h : c < L.count t
    · simp [bestStep, h]
    · simp [bestStep, h]

/-- Once the grouped-count fold holds a candidate, it keeps one. -/
theorem bestFold_isSome (L : List String) :
    ∀ (ys : List String) (acc : Option (String × Nat)), acc.isSome = true →
      ((ys.foldl (bestStep L) acc).isSome = true) := by
  intro ys
  induction ys with
  | nil => intro acc h; exact h
  | cons y ys ih =>
    intro acc h
    rw [List.foldl_cons]
    exact ih _ (bestStep_isSome L acc y)

/-- The grouped-count query returns no row exactly when nothing matches. -/
theorem bestTag_eq_none_iff (l : List String) : bestTag l = none ↔ l = [] := by
  cases l with
  | nil => simp [bestTag]
  | cons x xs =>
    constructor
    · intro h
      exfalso
      have hs : ((x :: xs).foldl (bestStep (x :: xs)) none).isSome = true := by
        rw [List.foldl_cons]
        exact bestFold_isSome _ xs _ (bestStep_isSome _ none x)
      rw [bestTag, Option.map_eq_none'] at h
      rw [h] at hs
      exact Bool.false_ne_true hs
    · intro h; exact absurd h (List.cons_ne_nil x xs)

/-- The match list over appended tag tables splits. -/
theorem matchingTags_append (xs ys : List TagEntry) (d : String) :
    matchingTags (xs ++ ys) d = matchingTags xs d ++ matchingTags ys d := by
  simp [matchingTags, List.filter_append]

/-- A tag table with no matching row contributes no matches. -/
theorem matchingTags_eq_nil {E : List TagEntry} {d : String}
    (h : ∀ e ∈ E, tagMatches d e = false) : matchingTags E d = [] := by
  have hf : E.filter (tagMatches d) = [] :=
    List.filter_eq_nil_iff.mpr (fun e he => by simp [h e he])
  simp [matchingTags, hf]

/-- A phase-1 step with no exact match leaves the state unchanged. -/
theorem phase1Step_none {existing : List TagEntry} {acc : List TagEntry × Nat}
    {d : String} (h : existing.find? (fun e => e.description == d) = none) :
    phase1Step existing acc d = acc := by
  simp [phase1Step, h]

/-- The phase-1 fold is the identity when no description has an exact
match in the snapshot. -/
theorem foldl_phase1_id (existing : List TagEntry) :
    ∀ (l : List String) (acc : List TagEntry × Nat),
      (∀ d ∈ l, existing.find? (fun e => e.description == d) = none) →
      l.foldl (phase1Step existing) acc = acc := by
  intro l
  induction l with
  | nil => intro acc _; rfl
  | cons d rest ih =>
    intro acc h
    rw [List.foldl_cons, phase1Step_none (h d (List.mem_cons_self _ _))]
    exact ih acc (fun d' hd' => h d' (List.mem_cons_of_mem _ hd'))

/-- Phase 1 is a no-op whenever none of the processed descriptions occurs
in the snapshot of existing tags. -/
theorem phase1_noop (existing tags : List TagEntry) (l : List String)
    (h : ∀ d ∈ l, existing.find? (fun e => e.description == d) = none) :
    phase1 existing tags l = (tags, 0) :=
  foldl_phase1_id existing l (tags, 0) h

/-- A phase-2 step with no matching tag row leaves the state unchanged. -/
theorem phase2Step_none {st : List TagEntry × Nat} {d : String}
    (h : bestTag (matchingTags st.1 d) = none) : phase2Step st d = st := by
  simp [phase2Step, h]

/-- The phase-2 fold is the identity when no description matches any row
of the current store. -/
theorem foldl_phase2_id :
    ∀ (l : List String) (st : List TagEntry × Nat),
      (∀ d ∈ l, bestTag (matchingTags st.1 d) = none) →
      l.foldl phase2Step st = st := by
  intro l
  induction l with
  | nil => intro st _; rfl
  | cons d rest ih =>
    intro st h
    rw [List.foldl_cons, phase2Step_none (h d (List.mem_cons_self _ _))]
    exact ih st (fun d' hd' => h d' (List.mem_cons_of_mem _ hd'))

/-- Inserting an absent description appends the new row. -/
theorem insertTagDoNothing_append {tags : List TagEntry} {d t : String}
    (h : hasTagFor tags d = false) :
    insertTagDoNothing tags d t = tags ++ [⟨d, t⟩] := by
  simp [insertTagDoNothing, h]

/-- A tags row witnesses `hasTagFor`. -/
theorem hasTagFor_of_mem {tags : List TagEntry} {e : TagEntry} {d : String}
    (h : e ∈ tags) (hd : e.description = d) : hasTagFor tags d = true :=
  List.any_eq_true.mpr ⟨e, h, by simp [hd]⟩

/-- Unpacking membership in the phase-2 assignment list. -/
theorem mem_phase2Assign {store0 : List TagEntry} {l : List String}
    {e : TagEntry} (h : e ∈ phase2Assign store0 l) :
    ∃ d ∈ l, e.description = d ∧ bestTag (matchingTags store0 d) = some e.tag := by
  obtain ⟨d, hd, hfd⟩ := List.mem_filterMap.mp h
  cases hb : bestTag (matchingTags store0 d) with
  | none => rw [hb] at hfd; simp at hfd
  | some w =>
    rw [hb, Option.map_some'] at hfd
    have hew : (⟨d, w⟩ : TagEntry) = e := by simpa using hfd
    subst hew
    exact ⟨d, hd, rfl, hb⟩

/-- A matched description contributes its winning row to the phase-2
assignment list. -/
theorem phase2Assign_mem_of {store0 : List TagEntry} {l : List String}
    {d w : String} (hd : d ∈ l)
    (hb : bestTag (matchingTags store0 d) = some w) :
    (⟨d, w⟩ : TagEntry) ∈ phase2Assign store0 l :=
  List.mem_filterMap.mpr ⟨d, hd, by rw [hb]; rfl⟩

/-- Characterisation of the phase-2 fold when no processed description
cross-matches another processed description or a previously inserted
in-batch row: every description is decided against the initial store
`store0`, the winning rows `phase2Assign` are appended after the in-batch
rows `E`, and the applied count is `phase2Count`. -/
theorem phase2_foldl_char :
    ∀ (l : List String) (store0 E : List TagEntry) (n0 : Nat),
      (∀ d ∈ l, hasTagFor store0 d = false) →
      l.Nodup →
      (∀ d ∈ l, ∀ d' ∈ l, d ≠ d' → crossMatch d d' = false) →
      (∀ d ∈ l, ∀ e ∈ E, crossMatch d e.description = false) →
      (∀ d ∈ l, ∀ e ∈ E, e.description ≠ d) →
      l.foldl phase2Step (store0 ++ E, n0) =
        (store0 ++ (E ++ phase2Assign store0 l), n0 + phase2Count store0 l) := by
  intro l
  induction l with
  | nil =>
    intro store0 E n0 _ _ _ _ _
    simp [phase2Assign, phase2Count]
  | cons d rest ih =>
    intro store0 E n0 h1 h2 h3 hEa hEb
    have hdmem : d ∈ d :: rest := List.mem_cons_self _ _
    have hnd : d ∉ rest := (List.nodup_cons.mp h2).1
    have hrestnd : rest.Nodup := (List.nodup_cons.mp h2).2
    have hmE : matchingTags (store0 ++ E) d = matchingTags store0 d := by
      rw [matchingTags_append,
        matchingTags_eq_nil (fun e he => hEa d hdmem e he), List.append_nil]
    rw [List.foldl_cons]
    cases hbt : bestTag (matchingTags store0 d) with
    | none =>
      have hstep : phase2Step (store0 ++ E, n0) d = (store0 ++ E, n0) := by
        apply phase2Step_none
        show bestTag (matchingTags (store0 ++ E) d) = none
        rw [hmE]; exact hbt
      rw [hstep,
        ih store0 E n0 (fun d' hd' => h1 d' (List.mem_cons_of_mem _ hd'))
          hrestnd
          (fun a ha b hb hab =>
            h3 a (List.mem_cons_of_mem _ ha) b (List.mem_cons_of_mem _ hb) hab)
          (fun a ha e he => hEa a (List.mem_cons_of_mem _ ha) e he)
          (fun a ha e he => hEb a (List.mem_cons_of_mem _ ha) e he)]
      have hA : phase2Assign store0 (d :: rest) = phase2Assign store0 rest := by
        simp [phase2Assign, List.filterMap_cons, hbt]
      have hC : phase2Count store0 (d :: rest) = phase2Count store0 rest := by
        simp [phase2Count, List.countP_cons, hbt]
      rw [hA, hC]
    | some w =>
      have hfull : hasTagFor (store0 ++ E) d = false := by
        rw [hasTagFor_append, h1 d hdmem,
          hasTagFor_false_iff.mpr (fun e he => hEb d hdmem e he)]
        rfl
      have hstep : phase2Step (store0 ++ E, n0) d =
          (store0 ++ (E ++ [⟨d, w⟩]), n0 + 1) := by
        show (match bestTag (matchingTags (store0 ++ E) d) with
          | some w => (insertTagDoNothing (store0 ++ E) d w, n0 + 1)
          | none => (store0 ++ E, n0)) = _
        rw [hmE, hbt]
        show (insertTagDoNothing (store0 ++ E) d w, n0 + 1) = _
        rw [insertTagDoNothing_append hfull, List.append_assoc]
      have hne : ∀ d' ∈ rest, d' ≠ d := by
        intro d' hd' hdd
        exact hnd (hdd ▸ hd')
      have hEa' : ∀ d' ∈ rest, ∀ e ∈ E ++ [(⟨d, w⟩ : TagEntry)],
          crossMatch d' e.description = false := by
        intro d' hd' e he
        rcases List.mem_append.mp he with he' | he'
        · exact hEa d' (List.mem_cons_of_mem _ hd') e he'
        · have he2 : e = ⟨d, w⟩ := by simpa using he'
          subst he2
          exact h3 d' (List.mem_cons_of_mem _ hd') d hdmem (hne d' hd')
      have hEb' : ∀ d' ∈ rest, ∀ e ∈ E ++ [(⟨d, w⟩ : TagEntry)],
          e.description ≠ d' := by
        intro d' hd' e he
        rcases List.mem_append.mp he with he' | he'
        · exact hEb d' (List.mem_cons_of_mem _ hd') e he'
        · have he2 : e = ⟨d, w⟩ := by simpa using he'
          subst he2
          exact fun hdd => hne d' hd' hdd.symm
      have ihres := ih store0 (E ++ [(⟨d, w⟩ : TagEntry)]) (n0 + 1)
        (fun d' hd' => h1 d' (List.mem_cons_of_mem _ hd'))
        hrestnd
        (fun a ha b hb hab =>
          h3 a (List.mem_cons_of_mem _ ha) b (List.mem_cons_of_mem _ hb) hab)
        hEa' hEb'
      rw [hstep, ihres]
      have hA : phase2Assign store0 (d :: rest) = ⟨d, w⟩ :: phase2Assign store0 rest := by
        simp [phase2Assign, List.filterMap_cons, hbt]
      have hC : phase2Count store0 (d :: rest) = phase2Count store0 rest + 1 := by
        simp [phase2Count, List.countP_cons, hbt]
      rw [hA, hC]
      simp only [Prod.mk.injEq]
      constructor
      · simp [List.append_assoc]
      · omega

/-- Characterisation of phase 2 run from a store it was computed against:
the winning rows are appended and the count is `phase2Count`. -/
theorem phase2_char (store0 : List TagEntry) (l : List String)
    (h1 : ∀ d ∈ l, hasTagFor store0 d = false) (h2 : l.Nodup)
    (h3 : ∀ d ∈ l, ∀ d' ∈ l, d ≠ d' → crossMatch d d' = false) :
    phase2 store0 l = (store0 ++ phase2Assign store0 l, phase2Count store0 l) := by
  have h := phase2_foldl_char l store0 [] 0 h1 h2 h3
    (fun _ _ e he => absurd he (List.not_mem_nil e))
    (fun _ _ e he => absurd he (List.not_mem_nil e))
  simpa [phase2] using h

/-- Structure eta for the database state. -/
theorem db_eta (db : DB) :
    ({ tags := db.tags, records_imported := db.records_imported,
       records_history := db.records_history } : DB) = db := rfl

/-- Characterisation of a full `auto_apply_tags` run on a cross-match-free
untagged set: phase 1 contributes nothing, and phase 2 appends exactly the
rows decided against the pre-run store. -/
theorem auto_apply_tags_char (db : DB)
    (h3 : ∀ d ∈ untaggedDescriptions db, ∀ d' ∈ untaggedDescriptions db,
      d ≠ d' → crossMatch d d' = false) :
    auto_apply_tags db =
      ({ db with
          tags := db.tags ++ phase2Assign db.tags (untaggedDescriptions db) },
        phase2Count db.tags (untaggedDescriptions db)) := by
  have h1 : ∀ d ∈ untaggedDescriptions db, hasTagFor db.tags d = false :=
    fun d hd => untagged_hasTagFor_false hd
  have hph1 : phase1 db.tags db.tags (untaggedDescriptions db) = (db.tags, 0) :=
    phase1_noop _ _ _ (fun d hd => find?_desc_none (h1 d hd))
  have hph2 := phase2_char db.tags (untaggedDescriptions db) h1 (untagged_nodup db) h3
  simp only [auto_apply_tags, hph1, db_eta]
  rw [hph2]
  simp

/-- The archival guard holds exactly when the history row carries the
working-set row's natural key. -/
theorem histKeyMatches_iff (t : TransRow) (h : HistRow) :
    histKeyMatches t h = true ↔ histKey h = rowKey t := by
  simp only [histKeyMatches, histKey, rowKey, Bool.and_eq_true, beq_iff_eq,
    Prod.mk.injEq, and_assoc]

/-- A flat map over a list collapsing every element to the empty list is
empty. -/
theorem flatMap_eq_nil_of {α β : Type} (l : List α) (f : α → List β)
    (h : ∀ a ∈ l, f a = []) : l.flatMap f = [] := by
  induction l with
  | nil => rfl
  | cons x xs ih =>
    rw [List.flatMap_cons, h x (List.mem_cons_self _ _), List.nil_append]
    exact ih (fun a ha => h a (List.mem_cons_of_mem _ ha))

/-- A filter map that wraps every element is a plain map. -/
theorem filterMap_some_eq_map {α β : Type} (f : α → β) (l : List α) :
    l.filterMap (fun a => some (f a)) = l.map f := by
  induction l with
  | nil => rfl
  | cons x xs ih => simp [List.filterMap_cons, ih]

/-- When no working-set row has a tags row, the archival INSERT selects
nothing. -/
theorem pushInserts_eq_nil {db : DB}
    (h : ∀ t ∈ db.records_imported, hasTagFor db.tags t.description = false) :
    pushInserts db = [] := by
  apply flatMap_eq_nil_of
  intro t ht
  have hf : db.tags.filter (fun e => e.description == t.description) = [] :=
    List.filter_eq_nil_iff.mpr (fun e he => by
      simpa using hasTagFor_false_iff.mp (h t ht) e he)
  rw [hf]
  rfl

/-- On a tags table with unique descriptions, the per-description filter
is empty (no tags row) or a singleton. -/
theorem filter_desc_cases (tags : List TagEntry)
    (htags : (tags.map (fun e => e.description)).Nodup) (d : String) :
    (hasTagFor tags d = false ∧ tags.filter (fun e => e.description == d) = []) ∨
    (hasTagFor tags d = true ∧ ∃ e : TagEntry,
      tags.filter (fun e => e.description == d) = [e]) := by
  induction tags with
  | nil => exact Or.inl ⟨rfl, rfl⟩
  | cons e es ih =>
    have hnotin : e.description ∉ es.map (fun x => x.description) :=
      (List.nodup_cons.mp htags).1
    have hnd : (es.map (fun x => x.description)).Nodup :=
      (List.nodup_cons.mp htags).2
    by_cases hd : e.description = d
    · refine Or.inr ⟨hasTagFor_of_mem (List.mem_cons_self _ _) hd, e, ?_⟩
      rw [List.filter_cons_of_pos (by simp [hd])]
      have hes : es.filter (fun x => x.description == d) = [] := by
        apply List.filter_eq_nil_iff.mpr
        intro e' he'
        simp only [beq_iff_eq]
        intro heq
        exact hnotin (hd ▸ heq ▸ List.mem_map_of_mem (fun x => x.description) he')
      rw [hes]
    · have hfe : (e :: es).filter (fun x => x.description == d) =
          es.filter (fun x => x.description == d) :=
        List.filter_cons_of_neg (by simp [hd])
      have hht : hasTagFor (e :: es) d = hasTagFor es d := by
        simp [hasTagFor, List.any_cons, hd]
      rcases ih hnd with ⟨h1, h2⟩ | ⟨h1, e', h2⟩
      · exact Or.inl ⟨by rw [hht]; exact h1, by rw [hfe]; exact h2⟩
      · exact Or.inr ⟨by rw [hht]; exact h1, e', by rw [hfe]; exact h2⟩

/-- The natural keys of the archival inserts are exactly the keys of the
working-set rows that are tagged and not yet present in history. -/
theorem inserts_map_key_aux (tags : List TagEntry) (hist : List HistRow)
    (htags : (tags.map (fun e => e.description)).Nodup) :
    ∀ (l : List TransRow),
      ((l.flatMap (fun t =>
        (tags.filter (fun e => e.description == t.description)).filterMap
          (fun e =>
            if hist.any (histKeyMatches t) then none
            else some ⟨t.date, t.description, t.vendor, t.amount, e.tag⟩))).map
          histKey)
      = ((l.filter (fun t =>
          hasTagFor tags t.description &&
            !(hist.any (histKeyMatches t)))).map rowKey) := by
  intro l
  induction l with
  | nil => rfl
  | cons t ts ih =>
    rw [List.flatMap_cons, List.map_append, ih]
    by_cases hany : hist.any (histKeyMatches t) = true
    · have hhead : (tags.filter (fun e => e.description == t.description)).filterMap
          (fun e =>
            if hist.any (histKeyMatches t) then none
            else some (⟨t.date, t.description, t.vendor, t.amount, e.tag⟩ : HistRow))
          = [] := by
        apply List.filterMap_eq_nil_iff.mpr
        intro e _
        rw [if_pos hany]
      rw [hhead, List.map_nil, List.nil_append,
        List.filter_cons_of_neg (by simp [hany])]
    · have hanyf : hist.any (histKeyMatches t) = false := by simpa using hany
      have hhead : (tags.filter (fun e => e.description == t.description)).filterMap
          (fun e =>
            if hist.any (histKeyMatches t) then none
            else some ⟨t.date, t.description, t.vendor, t.amount, e.tag⟩)
          = (tags.filter (fun e => e.description == t.description)).map
              (fun e => (⟨t.date, t.description, t.vendor, t.amount, e.tag⟩ : HistRow)) := by
        have hstep : ∀ e : TagEntry,
            (if hist.any (histKeyMatches t) then none
              else some (⟨t.date, t.description, t.vendor, t.amount, e.tag⟩ : HistRow))
            = some (⟨t.date, t.description, t.vendor, t.amount, e.tag⟩ : HistRow) := by
          intro e; rw [if_neg hany]
        calc (tags.filter (fun e => e.description == t.description)).filterMap
              (fun e =>
                if hist.any (histKeyMatches t) then none
                else some ⟨t.date, t.description, t.vendor, t.amount, e.tag⟩)
            = (tags.filter (fun e => e.description == t.description)).filterMap
              (fun e =>
                some (⟨t.date, t.description, t.vendor, t.amount, e.tag⟩ : HistRow)) := by
              exact List.filterMap_congr (fun e _ => hstep e)
          _ = _ := filterMap_some_eq_map _ _
      rw [hhead, List.map_map]
      rcases filter_desc_cases tags htags t.description with ⟨hfalse, hnil⟩ |
        ⟨htrue, e', hone⟩
      · rw [hnil, List.map_nil, List.nil_append,
          List.filter_cons_of_neg (by simp [hfalse])]
      · rw [hone, List.filter_cons_of_pos (by simp [htrue, hanyf]), List.map_cons]
        rfl

/-- The archival run preserves duplicate-freeness of history natural keys
when the tags table has unique descriptions and the working set itself
holds no two rows with an identical natural key. -/
theorem push_preserves_nodup (db : DB)
    (htags : (db.tags.map (fun e => e.description)).Nodup)
    (hw : (db.records_imported.map rowKey).Nodup)
    (hh : (db.records_history.map histKey).Nodup) :
    (((push_to_history db).1.records_history).map histKey).Nodup := by
  show ((db.records_history ++ pushInserts db).map histKey).Nodup
  rw [List.map_append]
  have hkeys : (pushInserts db).map histKey =
      ((db.records_imported.filter (fun t =>
        hasTagFor db.tags t.description &&
          !(db.records_history.any (histKeyMatches t)))).map rowKey) :=
    inserts_map_key_aux db.tags db.records_history htags db.records_imported
  refine List.Nodup.append hh ?_ ?_
  · rw [hkeys]
    exact ((List.filter_sublist _).map rowKey).nodup hw
  · intro a ha hb
    rw [hkeys] at hb
    obtain ⟨t, htf, rfl⟩ := List.mem_map.mp hb
    have hP := (List.mem_filter.mp htf).2
    have hnv : db.records_history.any (histKeyMatches t) = false := by
      simp only [Bool.and_eq_true] at hP
      simpa using hP.2
    obtain ⟨h0, hh0, ha0⟩ := List.mem_map.mp ha
    have : histKeyMatches t h0 = true := (histKeyMatches_iff t h0).mpr ha0
    have := List.any_eq_false.mp hnv h0 hh0
    simp_all

end SpendingDB

namespace FinancialAnalyst

/-- After the reconciliation pass, every history row whose description
has a tags row carries that row's tag. -/
theorem reconcile_lookup (tags : List TagEntry) (hist : List HistRow) :
    ∀ h ∈ reconcile tags hist, ∀ t,
      lookupTag tags h.description = some t → h.tag = t := by
  intro h hh t ht
  obtain ⟨h0, hm, rfl⟩ := List.mem_map.mp hh
  have hdesc : (match lookupTag tags h0.description with
      | some t0 => { h0 with tag := t0 }
      | none => h0).description = h0.description := by
    cases lookupTag tags h0.description <;> rfl
  rw [hdesc] at ht
  cases hl : lookupTag tags h0.description with
  | none => rw [hl] at ht; exact absurd ht (by simp)
  | some t0 =>
    rw [hl] at ht
    have ht0 : t0 = t := by simpa using ht
    show t0 = t
    exact ht0

end FinancialAnalyst

namespace SpendingDB

/-- C1 (corrected): `pushToHistory` never inserts a row whose
(date, description, vendor, amount) tuple already exists in the history
table at the start of the run, and — provided the tags table has unique
descriptions and the working set contains no two rows with an identical
tuple — an archival run leaves the history table free of duplicate
tuples.  (As stated, the claim is false: two identical working-set rows
both pass the `NOT EXISTS` guard within a single run; see the
counterexample.) -/
theorem claim_c1 (db : DB)
    (htags : (db.tags.map (fun e => e.description)).Nodup)
    (hw : (db.records_imported.map rowKey).Nodup)
    (hh : (db.records_history.map histKey).Nodup) :
    (∀ h' ∈ pushInserts db, histKey h' ∉ db.records_history.map histKey) ∧
    (((push_to_history db).1.records_history).map histKey).Nodup := by
  constructor
  · intro h' hmem hin
    have hk : histKey h' ∈ (pushInserts db).map histKey :=
      List.mem_map_of_mem _ hmem
    rw [show (pushInserts db).map histKey = _ from
      inserts_map_key_aux db.tags db.records_history htags db.records_imported] at hk
    obtain ⟨t, htf, heq⟩ := List.mem_map.mp hk
    have hP := (List.mem_filter.mp htf).2
    have hnv : db.records_history.any (histKeyMatches t) = false := by
      simp only [Bool.and_eq_true] at hP
      simpa using hP.2
    obtain ⟨h0, hh0, ha0⟩ := List.mem_map.mp hin
    have hmt : histKeyMatches t h0 = true :=
      (histKeyMatches_iff t h0).mpr (ha0.trans heq.symm)
    have := List.any_eq_false.mp hnv h0 hh0
    simp_all
  · exact push_preserves_nodup db htags hw hh

/-- Witness for C1 at a state where the run moves a row into a nonempty
history table. -/
theorem claim_c1_witness :
    (∀ h' ∈ pushInserts dbMoveOne,
      histKey h' ∉ dbMoveOne.records_history.map histKey) ∧
    (((push_to_history dbMoveOne).1.records_history).map histKey).Nodup :=
  claim_c1 dbMoveOne (by decide) (by decide) (by decide)

/-- Counterexample to C1 as stated: with two identical tagged rows in the
working set, a single `pushToHistory` run leaves two history rows with an
identical (date, description, vendor, amount) tuple. -/
theorem claim_c1_cex :
    ¬ (((push_to_history dbDupRows).1.records_history).map histKey).Nodup := by
  decide

/-- C4 (confirmed): running `pushToHistory` twice in succession yields
`movedCount = 0` on the second call, and the second call leaves the
history table unchanged. -/
theorem claim_c4 (db : DB) :
    (push_to_history (push_to_history db).1).2 = 0 ∧
    (push_to_history (push_to_history db).1).1.records_history =
      (push_to_history db).1.records_history := by
  have h : ∀ t ∈ (push_to_history db).1.records_imported,
      hasTagFor (push_to_history db).1.tags t.description = false := by
    intro t ht
    have ht2 : t ∈ db.records_imported.filter
        (fun t => !(hasTagFor db.tags t.description)) := ht
    have := (List.mem_filter.mp ht2).2
    simpa using this
  have hnil : pushInserts (push_to_history db).1 = [] := pushInserts_eq_nil h
  constructor
  · show (pushInserts (push_to_history db).1).length = 0
    rw [hnil]
    rfl
  · show (push_to_history db).1.records_history ++
        pushInserts (push_to_history db).1 = (push_to_history db).1.records_history
    rw [hnil, List.append_nil]

/-- C7 (confirmed): after `pushToHistory`, the working set is exactly its
previous rows whose description has no Tag Store entry (so no remaining
row is tagged and untagged rows are untouched, in order and multiplicity),
and the tags table is unchanged. -/
theorem claim_c7 (db : DB) :
    (push_to_history db).1.records_imported =
      db.records_imported.filter (fun t => !(hasTagFor db.tags t.description)) ∧
    ((push_to_history db).1.records_imported.all
      (fun t => !(hasTagFor db.tags t.description))) = true ∧
    (push_to_history db).1.tags = db.tags := by
  refine ⟨rfl, ?_, rfl⟩
  rw [List.all_eq_true]
  intro t ht
  have ht2 : t ∈ db.records_imported.filter
      (fun t => !(hasTagFor db.tags t.description)) := ht
  exact (List.mem_filter.mp ht2).2

/-- C8 (confirmed): phase 1 of `autoTag` is a no-op in every state — the
tags table is unchanged by it and it contributes zero to the returned
count, because the untagged set already excludes every description present
in the Tag Store. -/
theorem claim_c8 (db : DB) :
    phase1 db.tags db.tags (untaggedDescriptions db) = (db.tags, 0) :=
  phase1_noop _ _ _ (fun _ hd => find?_desc_none (untagged_hasTagFor_false hd))

/-- C3 (corrected): the partial-match phase considers exactly the entries
satisfying the SQL `ILIKE` conditions; for descriptions free of `LIKE`
metacharacters this is exactly bidirectional case-insensitive substring
containment, and on the Coffee Shop example `autoTag` assigns "Dining"
(2 votes against 1) with one tag applied.  (As stated — plain containment
for all inputs — the claim is false; see the counterexample with a stored
description containing `_`.) -/
theorem claim_c3 :
    (∀ d e : String, noMeta d = true → noMeta e = true →
      crossMatch d e = (specContainsCI e d || specContainsCI d e)) ∧
    lookupTag (auto_apply_tags dbCoffee).1.tags "Coffee Shop" = some "Dining" ∧
    (auto_apply_tags dbCoffee).2 = 1 :=
  ⟨fun d e hd he => crossMatch_contains d e hd he, by decide, by decide⟩

/-- Witness for C3: the metacharacter-freeness hypotheses hold for the
Coffee Shop strings and the equivalence instance follows. -/
theorem claim_c3_witness :
    crossMatch "Coffee Shop" "Coffee Shop A" =
      (specContainsCI "Coffee Shop A" "Coffee Shop" ||
        specContainsCI "Coffee Shop" "Coffee Shop A") ∧
    lookupTag (auto_apply_tags dbCoffee).1.tags "Coffee Shop" = some "Dining" :=
  ⟨claim_c3.1 "Coffee Shop" "Coffee Shop A" (by decide) (by decide),
    claim_c3.2.1⟩

/-- Counterexample to C3 as stated: with the Tag Store entry ("a_c", "T")
and untagged description "abc", neither string contains the other, yet
`autoTag` assigns "T" to "abc" because `_` is an `ILIKE` wildcard — so the
engine does not consider exactly the containment-related entries. -/
theorem claim_c3_cex :
    specContainsCI "abc" "a_c" = false ∧
    specContainsCI "a_c" "abc" = false ∧
    lookupTag (auto_apply_tags dbUnderscore).1.tags "abc" = some "T" := by
  decide

/-- C5 (corrected): a second `autoTag` run applies zero tags provided no
two untagged descriptions of the first run match each other under the
partial-match condition.  (As stated — for every starting state — the
claim is false: a tag inserted for one description can create a new
partial match for another; see the counterexample.) -/
theorem claim_c5 (db : DB)
    (h3 : ∀ d ∈ untaggedDescriptions db, ∀ d' ∈ untaggedDescriptions db,
      d ≠ d' → crossMatch d d' = false) :
    (auto_apply_tags (auto_apply_tags db).1).2 = 0 := by
  have hchar := auto_apply_tags_char db h3
  rw [hchar]
  show (auto_apply_tags
    { db with
        tags := db.tags ++ phase2Assign db.tags (untaggedDescriptions db) }).2 = 0
  have hsub : ∀ d ∈ untaggedDescriptions
      ({ db with
          tags := db.tags ++ phase2Assign db.tags (untaggedDescriptions db) } : DB),
      d ∈ untaggedDescriptions db ∧
        hasTagFor (phase2Assign db.tags (untaggedDescriptions db)) d = false := by
    intro d hd
    have hd1 := List.mem_filter.mp hd
    have hdd : d ∈ dedupFirst (db.records_imported.map (fun t => t.description)) :=
      hd1.1
    have hts : hasTagFor
        (db.tags ++ phase2Assign db.tags (untaggedDescriptions db)) d = false := by
      simpa using hd1.2
    rw [hasTagFor_append] at hts
    have h0 : hasTagFor db.tags d = false := by
      cases hx : hasTagFor db.tags d
      · rfl
      · rw [hx] at hts; simp at hts
    have hA : hasTagFor (phase2Assign db.tags (untaggedDescriptions db)) d = false := by
      cases hx : hasTagFor (phase2Assign db.tags (untaggedDescriptions db)) d
      · rfl
      · rw [hx] at hts; simp at hts
    exact ⟨List.mem_filter.mpr ⟨hdd, by simp [h0]⟩, hA⟩
  have hz : ∀ d ∈ untaggedDescriptions
      ({ db with
          tags := db.tags ++ phase2Assign db.tags (untaggedDescriptions db) } : DB),
      bestTag (matchingTags
        (db.tags ++ phase2Assign db.tags (untaggedDescriptions db)) d) = none := by
    intro d hd
    obtain ⟨hdU, hdA⟩ := hsub d hd
    have hm0 : bestTag (matchingTags db.tags d) = none := by
      cases hb : bestTag (matchingTags db.tags d) with
      | none => rfl
      | some w =>
        exfalso
        have hmemA := phase2Assign_mem_of hdU hb
        have htrue := hasTagFor_of_mem hmemA rfl
        rw [htrue] at hdA
        simp at hdA
    have hmnil : matchingTags db.tags d = [] := (bestTag_eq_none_iff _).mp hm0
    have hAnil : matchingTags (phase2Assign db.tags (untaggedDescriptions db)) d
        = [] := by
      apply matchingTags_eq_nil
      intro e he
      obtain ⟨d', hd', hdesc, hbt⟩ := mem_phase2Assign he
      have hne : d ≠ d' := by
        intro hdd
        have htrue := hasTagFor_of_mem he (hdesc.trans hdd.symm)
        rw [htrue] at hdA
        simp at hdA
      show crossMatch d e.description = false
      rw [hdesc]
      exact h3 d hdU d' hd' hne
    rw [matchingTags_append, hmnil, hAnil]
    rfl
  have hchar2 := auto_apply_tags_char
    ({ db with
        tags := db.tags ++ phase2Assign db.tags (untaggedDescriptions db) } : DB)
    (fun d hd d' hd' hne => h3 d (hsub d hd).1 d' (hsub d' hd').1 hne)
  rw [hchar2]
  show phase2Count
      (db.tags ++ phase2Assign db.tags (untaggedDescriptions db))
      (untaggedDescriptions
        ({ db with
            tags := db.tags ++ phase2Assign db.tags (untaggedDescriptions db) } : DB))
    = 0
  apply List.countP_eq_zero.mpr
  intro d hd
  simp [hz d hd]

/-- Witness for C5 at a state whose two untagged descriptions do not
cross-match. -/
theorem claim_c5_witness :
    (auto_apply_tags (auto_apply_tags dbFree).1).2 = 0 :=
  claim_c5 dbFree (by decide)

/-- Counterexample to C5 as stated: after the first run tags "x" (which
matches the stored "xz"), the new entry makes "xy" match on the second
run, so the second call applies one tag, not zero. -/
theorem claim_c5_cex :
    (auto_apply_tags (auto_apply_tags dbChain).1).2 ≠ 0 := by
  decide

/-- C9 (corrected): when no two untagged descriptions cross-match, the
final Tag Store contents after the partial-match phase are the same (as a
multiset, i.e. up to permutation) under every ordering of the processed
descriptions, and so is the applied count.  (As stated — for every state —
the claim is false: processing "x" before "xy" tags both, the reverse
order tags only "x"; see the counterexample.) -/
theorem claim_c9 (db : DB) (l1 l2 : List String)
    (hl1 : l1.Perm (untaggedDescriptions db))
    (hl2 : l2.Perm (untaggedDescriptions db))
    (h3 : ∀ d ∈ untaggedDescriptions db, ∀ d' ∈ untaggedDescriptions db,
      d ≠ d' → crossMatch d d' = false) :
    (phase2 db.tags l1).1.Perm ((phase2 db.tags l2).1) ∧
    (phase2 db.tags l1).2 = (phase2 db.tags l2).2 := by
  have char1 := phase2_char db.tags l1
    (fun d hd => untagged_hasTagFor_false (hl1.mem_iff.mp hd))
    (hl1.symm.nodup (untagged_nodup db))
    (fun d hd d' hd' hne =>
      h3 d (hl1.mem_iff.mp hd) d' (hl1.mem_iff.mp hd') hne)
  have char2 := phase2_char db.tags l2
    (fun d hd => untagged_hasTagFor_false (hl2.mem_iff.mp hd))
    (hl2.symm.nodup (untagged_nodup db))
    (fun d hd d' hd' hne =>
      h3 d (hl2.mem_iff.mp hd) d' (hl2.mem_iff.mp hd') hne)
  have hperm : l1.Perm l2 := hl1.trans hl2.symm
  constructor
  · rw [char1, char2]
    exact List.Perm.append_left db.tags (hperm.filterMap _)
  · rw [char1, char2]
    exact hperm.countP_eq _

/-- Witness for C9: two orderings of the cross-match-free untagged set of
`dbFree` produce permutation-equal stores and equal counts. -/
theorem claim_c9_witness :
    (phase2 dbFree.tags ["ab", "cd"]).1.Perm ((phase2 dbFree.tags ["cd", "ab"]).1) ∧
    (phase2 dbFree.tags ["ab", "cd"]).2 = (phase2 dbFree.tags ["cd", "ab"]).2 :=
  claim_c9 dbFree ["ab", "cd"] ["cd", "ab"] (by decide) (by decide) (by decide)

/-- Counterexample to C9 as stated: the engine's own order ["xy", "x"]
leaves "xy" untagged, while the permuted order ["x", "xy"] tags it — the
final Tag Store contents differ across orderings of the same batch. -/
theorem claim_c9_cex :
    (["x", "xy"] : List String).Perm (untaggedDescriptions dbChain) ∧
    lookupTag (phase2 dbChain.tags (untaggedDescriptions dbChain)).1 "xy" = none ∧
    lookupTag (phase2 dbChain.tags ["x", "xy"]).1 "xy" = some "T" := by
  refine ⟨?_, by decide, by decide⟩
  rw [show untaggedDescriptions dbChain = ["xy", "x"] from by decide]
  exact List.Perm.swap "xy" "x" []

/-- C6 (code bug): re-importing a (date, description, vendor, amount) row
identical to one already in the working set inserts a second copy and
counts it — the `records_imported` table has no unique constraint, so the
INSERT's `ON CONFLICT DO NOTHING` clause never fires and the documented
natural-key duplicate-skip never happens. -/
theorem claim_c6 :
    (import_records ["date,description,vendor,amount", "d1,A,v,1"] false
      dbOneRow).1.records_imported =
      [⟨"d1", "A", "v", "1"⟩, ⟨"d1", "A", "v", "1"⟩] ∧
    (import_records ["date,description,vendor,amount", "d1,A,v,1"] false
      dbOneRow).2.1 = 1 ∧
    ¬ ((import_records ["date,description,vendor,amount", "d1,A,v,1"] false
      dbOneRow).1.records_imported.map rowKey).Nodup := by
  decide

/-- C10 (confirmed): when the uploaded CSV yields fewer than two lines
(header with no data rows, or an empty file), each of the three import
routes performs no database action at all — even with clearFirst set, no
table is truncated and the returned counts are zero. -/
theorem claim_c10 (lines : List String) (cf : Bool) (db : DB)
    (h : ¬ lines.length > 1) :
    import_tags lines cf db = (db, 0) ∧
    import_history lines cf db = (db, 0) ∧
    import_records lines cf db = (db, 0, 0, 0) := by
  refine ⟨?_, ?_, ?_⟩
  · simp only [import_tags, if_neg h]
  · simp only [import_history, if_neg h]
  · simp only [import_records, if_neg h]

/-- Witness for C10: an empty upload with clearFirst set leaves a
nonempty working set untouched in all three routes. -/
theorem claim_c10_witness :
    import_tags [] true dbOneRow = (dbOneRow, 0) ∧
    import_history [] true dbOneRow = (dbOneRow, 0) ∧
    import_records [] true dbOneRow = (dbOneRow, 0, 0, 0) :=
  claim_c10 [] true dbOneRow (by decide)

end SpendingDB

namespace FinancialAnalyst

/-- C2 (corrected): after `importTags`, every history row whose
description has a Tag Store entry carries that entry's tag — in
particular, when the import sets description D's entry to "New", every
history row for D ends with "New"; this is decided by the final
description-keyed reconciliation pass.  (The claim's further assertion
that rows with unrelated descriptions are updated *only if* their own
description's entry resolves to the new tag is false: a row whose
description has no Tag Store entry at all keeps the crude
oldTag-to-newTag bulk update; see the counterexample.) -/
theorem claim_c2 (lines : List String) (cf : Bool) (db : DB)
    (hlen : lines.length > 1) :
    ∀ h ∈ (import_tags lines cf db).1.records_history, ∀ t,
      lookupTag (import_tags lines cf db).1.tags h.description = some t →
      h.tag = t := by
  simp only [import_tags]
  rw [if_pos hlen]
  intro h hh t ht
  exact reconcile_lookup _ _ h hh t ht

/-- Witness for C2: importing (D, New) over the store entry (D, Old)
retags D's history row to New via the reconciliation pass. -/
theorem claim_c2_witness :
    (⟨"h1", "D", "v", "1", some "New"⟩ : HistRow).tag = some "New" :=
  claim_c2 ["description,tag", "D,New"] false dbRemap (by decide)
    ⟨"h1", "D", "v", "1", some "New"⟩ (by decide) (some "New") (by decide)

/-- Counterexample to C2 as stated: the history row for description "E"
(which has no Tag Store entry) also had tag "Old"; the bulk update flips
it to "New" and the reconciliation pass cannot restore it, so it is
updated although its own description's Tag Store entry does not resolve
to "New" — it has none. -/
theorem claim_c2_cex :
    (import_tags ["description,tag", "D,New"] false dbRemap).1.records_history =
      [⟨"h1", "D", "v", "1", some "New"⟩, ⟨"h2", "E", "v", "2", some "New"⟩] ∧
    lookupTag (import_tags ["description,tag", "D,New"] false dbRemap).1.tags "E"
      = none := by
  decide

end FinancialAnalyst

end Spec2Proof
